import Mathlib

/-!
Shallow embedding of the core of `dashboard_v2.py`: the data cache and
fetch engine (`DataEngine`) and the indicator computations (`calc_rsi`,
`IndicatorEngine`, the `_to_float` helpers).  Numbers are modelled by
`ℚ`; Python `None` and loosely typed provider values by `PyVal`; the
network by an explicit `NetResult` describing the outcome of the one
HTTP request a fetch performs.
-/

/-- A loosely typed external value as delivered by the provider API.
A string is abstracted to the outcome Python `float()` has on it:
`str (some q)` is a numeric-looking string that parses to `q` (such as
the scientific-notation zero `0E-8`), `str none` one that does not
parse (the empty string or garbage text).  `other` stands for any
non-numeric, non-string value (a list, a dict, ...). -/
inductive PyVal where
  | pyNone
  | num (q : ℚ)
  | str (parsed : Option ℚ)
  | other
deriving DecidableEq

/-- Python builtin `float()` applied to a `PyVal`: succeeds on numbers
and on strings that parse, raises `TypeError` or `ValueError`
otherwise. -/
def pyFloat : PyVal → Except String ℚ
  | .pyNone => .error "TypeError"
  | .num q => .ok q
  | .str (some q) => .ok q
  | .str none => .error "ValueError"
  | .other => .error "TypeError"

/-- One candle dict as returned by the API and stored in the cache; the
core reads only its `trade_price` field (`PyVal.pyNone` also models a
missing key, since `c.get("trade_price")` yields `None` then). -/
structure Bar where
  trade_price : PyVal
deriving DecidableEq

/-- One value of `DataEngine._cache`: exactly the dict written by
`refresh_all`, holding `candles`, `last_refresh` (time as `Nat`),
`fetch_ok` and `fetch_error`. -/
structure CacheEntry where
  candles : List Bar
  last_refresh : Nat
  fetch_ok : Bool
  fetch_error : Option String
deriving DecidableEq

/-- The `DataEngine._cache` dict, keyed by `(market, tf)`.  Assignment
is modelled by consing and lookup by the first match, which gives the
overwrite semantics of a Python dict. -/
abbrev Cache := List ((String × String) × CacheEntry)

/-- `self._cache.get(k)` / `self._cache[k]` read access. -/
def cacheGet (c : Cache) (k : String × String) : Option CacheEntry :=
  (c.find? (fun p => decide (p.1 = k))).map (fun p => p.2)

/-- `self._cache[k] = e` dict assignment. -/
def cacheInsert (c : Cache) (k : String × String) (e : CacheEntry) : Cache :=
  (k, e) :: c

/-- Outcome of the single `requests.get` call performed by
`DataEngine._fetch_candles_from_api`, together with the decoding of the
response: `transport_err` means the request itself raised (timeout,
connection error); `http_err` a response with a non-200 status code and
its body; `decode_err` a 200 response whose body is not valid JSON;
`shape_err` valid JSON that is not a list; `ok bars` a JSON list of
candles, newest first. -/
inductive NetResult where
  | transport_err (msg : String)
  | http_err (status : Nat) (body : String)
  | decode_err (msg : String)
  | shape_err
  | ok (bars : List Bar)
deriving DecidableEq

/-- The four failure outcomes of the request, as opposed to a decoded
list of candles. -/
def NetResult.isFailure : NetResult → Bool
  | .ok _ => false
  | _ => true

/-- `self._cache.get((market, tf), \x7b\x7d).get("candles", [])`: the
fallback the fetcher itself performs on every failure branch. -/
def DataEngine.cached_candles (cache : Cache) (market tf : String) : List Bar :=
  ((cacheGet cache (market, tf)).map (fun e => e.candles)).getD []

/-- `DataEngine._fetch_candles_from_api` (the `count` parameter and the
minute/day endpoint choice only shape the URL and are dropped): on a
transport error, a non-200 status, a JSON decode failure or a non-list
body it logs and returns the previously cached candles for the key (or
`[]`); on success it reverses the newest-first list to oldest-first. -/
def DataEngine.fetch_candles_from_api
    (cache : Cache) (market tf : String) (net : NetResult) : List Bar :=
  match net with
  | .transport_err _ => DataEngine.cached_candles cache market tf
  | .http_err _ _ => DataEngine.cached_candles cache market tf
  | .decode_err _ => DataEngine.cached_candles cache market tf
  | .shape_err => DataEngine.cached_candles cache market tf
  | .ok bars => bars.reverse

/-- The body of the `for tf in tfs` loop of `DataEngine.refresh_all`:
the `try`/`except` around the fetch call plus the unconditional cache
assignment.  `r` is the outcome of `self._fetch_candles_from_api`
(`Except.error` when it raises; `candles` keeps its initialiser `[]`
then, `fetch_ok` becomes `False` and `fetch_error` the message). -/
def DataEngine.refresh_store
    (cache : Cache) (market tf : String) (r : Except String (List Bar))
    (now : Nat) : Cache :=
  match r with
  | .ok candles =>
      cacheInsert cache (market, tf)
        { candles := candles, last_refresh := now,
          fetch_ok := true, fetch_error := none }
  | .error e =>
      cacheInsert cache (market, tf)
        { candles := [], last_refresh := now,
          fetch_ok := false, fetch_error := some e }

/-- One iteration of `refresh_all` in terms of the actual fetcher: the
embedded `_fetch_candles_from_api` is total (it handles all four
failure kinds internally), so the `try` always succeeds. -/
def DataEngine.refresh_one
    (cache : Cache) (market tf : String) (net : NetResult) (now : Nat) : Cache :=
  DataEngine.refresh_store cache market tf
    (Except.ok (DataEngine.fetch_candles_from_api cache market tf net)) now

/-- `DataEngine.refresh_all`: sequentially refreshes each timeframe of
`tfs` for `market`; `env tf` is the network outcome of the request made
for timeframe `tf` during this cycle. -/
def DataEngine.refresh_all
    (cache : Cache) (market : String) (tfs : List String)
    (env : String → NetResult) (now : Nat) : Cache :=
  tfs.foldl (fun c tf => DataEngine.refresh_one c market tf (env tf) now) cache

/-- `DataEngine.get`: pure cache read. -/
def DataEngine.get (cache : Cache) (market tf : String) : Option CacheEntry :=
  cacheGet cache (market, tf)

/-- `IndicatorEngine._to_float`: returns `None` for `None`, otherwise
tries `float(val)` and catches `TypeError`/`ValueError` as `None`. -/
def IndicatorEngine.to_float (v : PyVal) : Option ℚ :=
  match v with
  | .pyNone => none
  | v =>
      match pyFloat v with
      | .ok q => some q
      | .error _ => none

/-- `ChartEngine._to_float`: same body, with the `None` check inside
the `try` block. -/
def ChartEngine.to_float (v : PyVal) : Option ℚ :=
  match v with
  | .pyNone => none
  | v =>
      match pyFloat v with
      | .ok q => some q
      | .error _ => none

/-- Modelled from the spec (section 4.1 NumericCoercion): return the
parsed number when the value parses as a number, and absent (`none`)
otherwise, never raising. -/
def numericCoercionContract (v : PyVal) : Option ℚ :=
  match pyFloat v with
  | .ok q => some q
  | .error _ => none

/-- The loop of `IndicatorEngine._get_closes`: coerce every candle's
`trade_price` and skip the ones that fail. -/
def validCloses (candles : List Bar) : List ℚ :=
  candles.filterMap (fun c => IndicatorEngine.to_float c.trade_price)

/-- `IndicatorEngine._get_closes`: `None` when the cache has no entry
for the key; otherwise the valid closes of its candles, `None` again
when that list is empty (`return closes or None`). -/
def IndicatorEngine.get_closes (cache : Cache) (market tf : String) : Option (List ℚ) :=
  match DataEngine.get cache market tf with
  | none => none
  | some entry =>
      let closes := validCloses entry.candles
      if closes = [] then none else some closes

/-- The consecutive differences `closes[i] - closes[i-1]` built by the
`for i in range(1, len(closes))` loop of `calc_rsi`. -/
def diffsOf : List ℚ → List ℚ
  | a :: b :: t => (b - a) :: diffsOf (b :: t)
  | _ => []

/-- Wilder smoothing step of `calc_rsi`, as folded over the gains or
losses past the seed window: `avg = (avg*(period-1) + v)/period`. -/
def wilderStep (period : Nat) (avg v : ℚ) : ℚ :=
  (avg * ((period : ℚ) - 1) + v) / (period : ℚ)

/-- `calc_rsi` from the source: require `period+1` closes, split each
difference into a gain (`diff` when `diff >= 0`, else `0`) and a loss
(`0` when `diff >= 0`, else `-diff`), seed both averages over the first
`period` values, Wilder-smooth over the rest, and finish with `100`
when the average loss is `0`, else `100 - 100/(1 + rs)`. -/
def calc_rsi (closes : List ℚ) (period : Nat) : Option ℚ :=
  if closes.length < period + 1 then none
  else
    let diffs := diffsOf closes
    let gains := diffs.map (fun d => if 0 ≤ d then d else 0)
    let losses := diffs.map (fun d => if 0 ≤ d then 0 else -d)
    let seed_gain := (gains.take period).sum / (period : ℚ)
    let seed_loss := (losses.take period).sum / (period : ℚ)
    let avg_gain := (gains.drop period).foldl (wilderStep period) seed_gain
    let avg_loss := (losses.drop period).foldl (wilderStep period) seed_loss
    if avg_loss = 0 then some 100
    else some (100 - 100 / (1 + avg_gain / avg_loss))

/-- Modelled from the spec (section 4.4 RSI): Wilder smoothing written
as its own recursion over the values after the seed window. -/
def wilderSmooth (period : Nat) (avg : ℚ) : List ℚ → ℚ
  | [] => avg
  | v :: vs => wilderSmooth period ((avg * ((period : ℚ) - 1) + v) / (period : ℚ)) vs

/-- Modelled from the spec (section 4.4 RSI): gains are `max(Δ, 0)` and
losses `max(-Δ, 0)`; the averages are seeded as the arithmetic mean of
the first `period` values and Wilder-smoothed over the rest; the result
is `100` when the final average loss is exactly `0`, and
`100 - 100/(1 + avg_gain/avg_loss)` otherwise; fewer than `period+1`
closes give "insufficient data". -/
def rsiSpec (closes : List ℚ) (period : Nat) : Option ℚ :=
  if closes.length < period + 1 then none
  else
    let diffs := diffsOf closes
    let gains := diffs.map (fun d => max d 0)
    let losses := diffs.map (fun d => max (-d) 0)
    let avg_gain := wilderSmooth period ((gains.take period).sum / (period : ℚ)) (gains.drop period)
    let avg_loss := wilderSmooth period ((losses.take period).sum / (period : ℚ)) (losses.drop period)
    if avg_loss = 0 then some 100
    else some (100 - 100 / (1 + avg_gain / avg_loss))

/-- The tail of the local `ema` helper of `IndicatorEngine.macd`, after
`prev` has been seeded: each value appends `v*k + prev*(1-k)`. -/
def emaGo (k prev : ℚ) : List ℚ → List ℚ
  | [] => []
  | v :: vs => (v * k + prev * (1 - k)) :: emaGo k (v * k + prev * (1 - k)) vs

/-- The local `ema` helper of `IndicatorEngine.macd`: `k = 2/(period+1)`,
the first value seeds the series, each later value is
`v*k + prev*(1-k)`. -/
def ema (vals : List ℚ) (period : Nat) : List ℚ :=
  match vals with
  | [] => []
  | v :: vs => v :: emaGo (2 / ((period : ℚ) + 1)) v vs

/-- `IndicatorEngine.macd`: closes through the cache, short and long
EMAs over the whole closes list, MACD line as their elementwise
difference, signal as the EMA of the MACD line, and the last value of
each series (the lists are nonempty whenever `_get_closes` succeeds, so
`getLastD 0` is Python's `[-1]`). -/
def IndicatorEngine.macd
    (cache : Cache) (market tf : String) (short lng sgnl : Nat) :
    Option (ℚ × ℚ × ℚ) :=
  match IndicatorEngine.get_closes cache market tf with
  | none => none
  | some closes =>
      let ema_short := ema closes short
      let ema_long := ema closes lng
      let macd_line := List.zipWith (fun s l => s - l) ema_short ema_long
      let signal_line := ema macd_line sgnl
      let m := macd_line.getLastD 0
      let s := signal_line.getLastD 0
      some (m, s, m - s)

/-- `IndicatorEngine.rsi`: closes through the cache, then `calc_rsi`. -/
def IndicatorEngine.rsi (cache : Cache) (market tf : String) (period : Nat) : Option ℚ :=
  match IndicatorEngine.get_closes cache market tf with
  | none => none
  | some closes => calc_rsi closes period

/-- `xs = list(range(n))` of `trend_score`, with the indices as `ℚ`. -/
def idxList (n : Nat) : List ℚ :=
  (List.range n).map (fun i : Nat => (i : ℚ))

/-- The body of `IndicatorEngine.trend_score` once the closes are in
hand: `None` on fewer than 10 closes, else the least-squares slope of
the closes against their indices (with the `or 1.0` guard on the
denominator) scaled into `max(0, min(100, 50 + slope*1000))`. -/
def trendScoreOfCloses (closes : List ℚ) : Option ℚ :=
  if closes.length < 10 then none
  else
    let xs := idxList closes.length
    let x_mean := xs.sum / (xs.length : ℚ)
    let y_mean := closes.sum / (closes.length : ℚ)
    let num := ((xs.zip closes).map (fun p => (p.1 - x_mean) * (p.2 - y_mean))).sum
    let den0 := (xs.map (fun x => (x - x_mean) ^ 2)).sum
    let den := if den0 = 0 then 1 else den0
    let slope := num / den
    some (max 0 (min 100 (50 + slope * 1000)))

/-- `IndicatorEngine.trend_score`: `None` when the closes are absent
(`closes is None`), else `trendScoreOfCloses`. -/
def IndicatorEngine.trend_score (cache : Cache) (market tf : String) : Option ℚ :=
  match IndicatorEngine.get_closes cache market tf with
  | none => none
  | some closes => trendScoreOfCloses closes

/-- Modelled from the spec (section 4.4 Trend score): the ordinary
least-squares slope of `ys` against the indices `0..n-1`, as the
mean-centered covariance over the mean-centered variance of the
indices. -/
def olsSlope (ys : List ℚ) : ℚ :=
  let n := ys.length
  let xs := idxList n
  let x_mean := xs.sum / (n : ℚ)
  let y_mean := ys.sum / (n : ℚ)
  ((xs.zip ys).map (fun p => (p.1 - x_mean) * (p.2 - y_mean))).sum /
    (xs.map (fun x => (x - x_mean) ^ 2)).sum

/-- A two-candle cache fixture used to instantiate proved theorems at a
concrete input. -/
def witnessCache : Cache :=
  [(("m", "15"), ⟨[⟨PyVal.num 1⟩, ⟨PyVal.num 2⟩], 0, true, none⟩)]

/-- A ten-candle cache fixture with closes `1..10`, used to instantiate
the trend-score theorem at a concrete input. -/
def witnessCache10 : Cache :=
  [(("m", "15"),
    ⟨([1, 2, 3, 4, 5, 6, 7, 8, 9, 10] : List ℚ).map (fun q => ⟨PyVal.num q⟩),
     0, true, none⟩)]

theorem cacheGet_insert (c : Cache) (k kq : String × String) (e : CacheEntry) :
    cacheGet (cacheInsert c k e) kq = if kq = k then some e else cacheGet c kq := by
  by_cases h : kq = k
  · subst h
    simp [cacheGet, cacheInsert, List.find?]
  · have hk : ¬ k = kq := fun hh => h hh.symm
    simp [cacheGet, cacheInsert, List.find?, hk, h]

theorem refresh_one_eq (c : Cache) (market tf : String) (net : NetResult) (now : Nat) :
    DataEngine.refresh_one c market tf net now =
      cacheInsert c (market, tf)
        { candles := DataEngine.fetch_candles_from_api c market tf net,
          last_refresh := now, fetch_ok := true, fetch_error := none } := rfl

/-- C9: both `_to_float` helpers are total functions of their input (so
they never raise), and each returns the parsed number exactly when the
value parses as a number and `none` (absent) otherwise — on `None`, the
empty string, a scientific-notation zero and garbage alike. -/
theorem to_float_never_raises_contract :
    ∀ v : PyVal,
      IndicatorEngine.to_float v = numericCoercionContract v ∧
      ChartEngine.to_float v = numericCoercionContract v := by
  intro v
  cases v with
  | pyNone => exact ⟨rfl, rfl⟩
  | num q => exact ⟨rfl, rfl⟩
  | str p => cases p <;> exact ⟨rfl, rfl⟩
  | other => exact ⟨rfl, rfl⟩

/-- C7: whenever `IndicatorEngine.macd` produces a result
`(macd, signal, hist)`, the identity `hist = macd - signal` holds
exactly. -/
theorem macd_histogram_identity
    (cache : Cache) (market tf : String) (short lng sgnl : Nat)
    (m s h : ℚ)
    (hres : IndicatorEngine.macd cache market tf short lng sgnl = some (m, s, h)) :
    h = m - s := by
  unfold IndicatorEngine.macd at hres
  cases hget : IndicatorEngine.get_closes cache market tf with
  | none => rw [hget] at hres; exact absurd hres (by simp)
  | some closes =>
      rw [hget] at hres
      simp only [Option.some.injEq, Prod.mk.injEq] at hres
      obtain ⟨h1, h2, h3⟩ := hres
      rw [← h1, ← h2, ← h3]

/-- C7 witness: the identity at the two-candle fixture. -/
theorem macd_histogram_identity_witness :
    (112 : ℚ) / 1755 = 28 / 351 - 28 / 1755 :=
  macd_histogram_identity witnessCache "m" "15" 12 26 9
    (28 / 351) (28 / 1755) (112 / 1755)
    (by
      simp [IndicatorEngine.macd, IndicatorEngine.get_closes, DataEngine.get,
        cacheGet, witnessCache, validCloses, IndicatorEngine.to_float, pyFloat,
        List.find?, List.filterMap, ema, emaGo]
      norm_num)

/-- C2 counterexample: for a fixed transport failure, the fetch result
depends on the cache state — with a previously cached candle it returns
that candle, on an empty cache it returns `[]` — so the fetcher is not
stateless with respect to the cache. -/
theorem fetch_reads_cache_counterexample :
    DataEngine.fetch_candles_from_api
        [(("m", "15"), ⟨[⟨PyVal.num 1⟩], 0, true, none⟩)] "m" "15"
        (NetResult.transport_err "timeout")
      ≠
    DataEngine.fetch_candles_from_api [] "m" "15"
        (NetResult.transport_err "timeout") := by
  decide

/-- C2 amended: the fetcher is stateless only for successful responses;
on each of the four failure kinds it reads the cache itself and returns
the previously cached candles for the key (empty when there is no
entry) — the stale-bar substitution lives in the fetcher, not in the
cache layer. -/
theorem fetch_cache_dependence (market tf : String) (net : NetResult) :
    (net.isFailure = false →
      ∀ c1 c2 : Cache,
        DataEngine.fetch_candles_from_api c1 market tf net =
          DataEngine.fetch_candles_from_api c2 market tf net) ∧
    (net.isFailure = true →
      ∀ c : Cache,
        DataEngine.fetch_candles_from_api c market tf net =
          ((cacheGet c (market, tf)).map (fun e => e.candles)).getD []) := by
  constructor
  · intro h c1 c2
    cases net <;> simp_all [NetResult.isFailure, DataEngine.fetch_candles_from_api]
  · intro h c
    cases net <;>
      simp_all [NetResult.isFailure, DataEngine.fetch_candles_from_api,
        DataEngine.cached_candles]

/-- C2 amended witness: on a transport failure the fetcher returns
exactly the candles cached for the key. -/
theorem fetch_cache_dependence_witness :
    DataEngine.fetch_candles_from_api witnessCache "m" "15"
        (NetResult.transport_err "timeout")
      = ((cacheGet witnessCache ("m", "15")).map (fun e => e.candles)).getD [] :=
  (fetch_cache_dependence "m" "15" (NetResult.transport_err "timeout")).2 rfl
    witnessCache

/-- C1: the code's actual behaviour at the claim's two scenarios.  A
forced transport failure with a pre-existing successful entry leaves
the previous candles in place but records `fetch_ok = True` and
`fetch_error = None` (not a FAILED status); a forced protocol failure
(HTTP 429) with no prior entry records empty candles, again with
`fetch_ok = True` and no failure description — because
`_fetch_candles_from_api` swallows all four failure kinds itself. -/
theorem refresh_all_failure_keeps_ok_status :
    DataEngine.get
        (DataEngine.refresh_all
          [(("KRW-BTC", "15"), ⟨[⟨PyVal.num 1⟩], 0, true, none⟩)]
          "KRW-BTC" ["15"] (fun _ => NetResult.transport_err "timeout") 1)
        "KRW-BTC" "15"
      = some ⟨[⟨PyVal.num 1⟩], 1, true, none⟩ ∧
    DataEngine.get
        (DataEngine.refresh_all [] "KRW-BTC" ["15"]
          (fun _ => NetResult.http_err 429 "too many requests") 1)
        "KRW-BTC" "15"
      = some ⟨[], 1, true, none⟩ := by
  exact ⟨by decide, by decide⟩

theorem refresh_all_written_entry
    (market : String) (env : String → NetResult) (now : Nat) :
    ∀ (tfs : List String) (cache : Cache) (k : String × String) (e : CacheEntry),
      cacheGet (DataEngine.refresh_all cache market tfs env now) k = some e →
      cacheGet cache k = some e ∨ (e.fetch_ok = true ∧ e.fetch_error = none) := by
  intro tfs
  induction tfs with
  | nil => intro cache k e h; exact Or.inl h
  | cons tf rest ih =>
      intro cache k e h
      rcases ih (DataEngine.refresh_one cache market tf (env tf) now) k e h with h1 | h1
      · rw [refresh_one_eq, cacheGet_insert] at h1
        by_cases hk : k = (market, tf)
        · rw [if_pos hk] at h1
          refine Or.inr ?_
          obtain rfl : _ = e := Option.some.inj h1
          exact ⟨rfl, rfl⟩
        · rw [if_neg hk] at h1
          exact Or.inl h1
      · exact Or.inr h1

theorem refresh_all_mono
    (market : String) (env : String → NetResult) (now : Nat) :
    ∀ (tfs : List String) (cache : Cache) (k : String × String),
      cacheGet cache k ≠ none →
      cacheGet (DataEngine.refresh_all cache market tfs env now) k ≠ none := by
  intro tfs
  induction tfs with
  | nil => intro cache k h; exact h
  | cons tf rest ih =>
      intro cache k h
      refine ih (DataEngine.refresh_one cache market tf (env tf) now) k ?_
      rw [refresh_one_eq, cacheGet_insert]
      by_cases hk : k = (market, tf)
      · rw [if_pos hk]; exact fun hc => Option.noConfusion hc
      · rw [if_neg hk]; exact h

/-- C10: every cache entry `refresh_all` itself writes has
`fetch_ok = True` and `fetch_error = None` (any entry of the refreshed
cache either already stood in the prior cache or is such an entry),
because the embedded `_fetch_candles_from_api` handles all four failure
kinds by returning a list; the FAILED branch of `refresh_all` is
exactly the image of a raising fetch, which `refresh_one` never
produces. -/
theorem refresh_all_entries_fetch_ok
    (cache : Cache) (market : String) (tfs : List String)
    (env : String → NetResult) (now : Nat) :
    (∀ (k : String × String) (e : CacheEntry),
       cacheGet (DataEngine.refresh_all cache market tfs env now) k = some e →
       cacheGet cache k = some e ∨ (e.fetch_ok = true ∧ e.fetch_error = none)) ∧
    (∀ (c : Cache) (tf : String) (msg : String) (n : Nat),
       cacheGet (DataEngine.refresh_store c market tf (Except.error msg) n)
           (market, tf) =
         some { candles := [], last_refresh := n,
                fetch_ok := false, fetch_error := some msg }) := by
  constructor
  · exact refresh_all_written_entry market env now tfs cache
  · intro c tf msg n
    show cacheGet (cacheInsert c (market, tf) _) (market, tf) = _
    rw [cacheGet_insert, if_pos rfl]

/-- C10 witness: a refresh over an empty cache under a shape failure
yields an entry with `fetch_ok = True` and `fetch_error = None`. -/
theorem refresh_all_entries_fetch_ok_witness :
    cacheGet ([] : Cache) ("m", "15") =
        some { candles := [], last_refresh := 5,
               fetch_ok := true, fetch_error := none } ∨
      ((true : Bool) = true ∧ (none : Option String) = none) :=
  (refresh_all_entries_fetch_ok [] "m" ["15"] (fun _ => NetResult.shape_err) 5).1
    ("m", "15")
    { candles := [], last_refresh := 5, fetch_ok := true, fetch_error := none }
    (by decide)

/-- C3: `refresh_all` records an entry for every timeframe in the given
list (so a later `get` for such a key is never absent), never deletes a
previously existing entry, and even a raising fetch is caught by the
loop body and recorded as an entry rather than propagated. -/
theorem refresh_all_total_and_keeps_entries
    (cache : Cache) (market : String) (tfs : List String)
    (env : String → NetResult) (now : Nat) :
    (∀ tf ∈ tfs,
       DataEngine.get (DataEngine.refresh_all cache market tfs env now) market tf
         ≠ none) ∧
    (∀ k : String × String, cacheGet cache k ≠ none →
       cacheGet (DataEngine.refresh_all cache market tfs env now) k ≠ none) ∧
    (∀ (c : Cache) (tf : String) (r : Except String (List Bar)) (n : Nat),
       cacheGet (DataEngine.refresh_store c market tf r n) (market, tf) ≠ none) := by
  refine ⟨?_, ?_, ?_⟩
  · intro tf htf
    induction tfs generalizing cache with
    | nil => exact absurd htf (List.not_mem_nil tf)
    | cons tf0 rest ih =>
        rcases List.mem_cons.mp htf with h0 | hrest
        · subst h0
          show cacheGet (DataEngine.refresh_all
              (DataEngine.refresh_one cache market tf (env tf) now)
              market rest env now) (market, tf) ≠ none
          refine refresh_all_mono market env now rest _ (market, tf) ?_
          rw [refresh_one_eq, cacheGet_insert, if_pos rfl]
          exact fun hc => Option.noConfusion hc
        · exact ih (DataEngine.refresh_one cache market tf0 (env tf0) now) hrest
  · intro k hk
    exact refresh_all_mono market env now tfs cache k hk
  · intro c tf r n
    cases r with
    | ok candles =>
        show cacheGet (cacheInsert c (market, tf) _) (market, tf) ≠ none
        rw [cacheGet_insert, if_pos rfl]
        exact fun hc => Option.noConfusion hc
    | error e =>
        show cacheGet (cacheInsert c (market, tf) _) (market, tf) ≠ none
        rw [cacheGet_insert, if_pos rfl]
        exact fun hc => Option.noConfusion hc

/-- C3 witness: after refreshing an empty cache for timeframe 15 under
a shape failure, `get` finds an entry. -/
theorem refresh_all_total_and_keeps_entries_witness :
    DataEngine.get
        (DataEngine.refresh_all [] "m" ["15"] (fun _ => NetResult.shape_err) 0)
        "m" "15" ≠ none :=
  (refresh_all_total_and_keeps_entries [] "m" ["15"]
      (fun _ => NetResult.shape_err) 0).1 "15" (by simp)

theorem diffsOf_map_add (c : ℚ) :
    ∀ l : List ℚ, diffsOf (l.map (fun x => x + c)) = diffsOf l := by
  intro l
  induction l with
  | nil => rfl
  | cons a t ih =>
      cases t with
      | nil => rfl
      | cons b t2 =>
          show (b + c - (a + c)) :: diffsOf ((b :: t2).map (fun x => x + c))
              = (b - a) :: diffsOf (b :: t2)
          exact congrArg₂ (fun x y => x :: y) (by ring) ih

/-- C8: `calc_rsi` is invariant under adding the same positive constant
to every close — only consecutive differences, never absolute levels,
enter the computation. -/
theorem calc_rsi_shift_invariant
    (closes : List ℚ) (period : Nat) (c : ℚ) (hc : 0 < c) :
    calc_rsi (closes.map (fun x => x + c)) period = calc_rsi closes period := by
  unfold calc_rsi
  rw [List.length_map, diffsOf_map_add]

/-- C8 witness: the spec's own check, closes `[100,102,101,105,103,...]`
against the same sequence shifted by `+1000`. -/
theorem calc_rsi_shift_invariant_witness :
    (0 : ℚ) < 1000 ∧
    calc_rsi
        (([100, 102, 101, 105, 103, 106, 104, 108, 107, 110,
           109, 112, 111, 114, 113] : List ℚ).map (fun x => x + 1000)) 14
      = calc_rsi
          [100, 102, 101, 105, 103, 106, 104, 108, 107, 110,
           109, 112, 111, 114, 113] 14 :=
  ⟨by norm_num,
   calc_rsi_shift_invariant
     [100, 102, 101, 105, 103, 106, 104, 108, 107, 110,
      109, 112, 111, 114, 113] 14 1000 (by norm_num)⟩

theorem wilderSmooth_eq_foldl (period : Nat) :
    ∀ (l : List ℚ) (a : ℚ),
      wilderSmooth period a l = l.foldl (wilderStep period) a := by
  intro l
  induction l with
  | nil => intro a; rfl
  | cons v vs ih =>
      intro a
      show wilderSmooth period ((a * ((period : ℚ) - 1) + v) / (period : ℚ)) vs
          = vs.foldl (wilderStep period) (wilderStep period a v)
      rw [ih]
      rfl

theorem gain_if_eq_max (d : ℚ) : (if 0 ≤ d then d else 0) = max d 0 := by
  rcases le_or_lt 0 d with h | h
  · rw [if_pos h, max_eq_left h]
  · rw [if_neg (not_le.mpr h), max_eq_right h.le]

theorem loss_if_eq_max (d : ℚ) : (if 0 ≤ d then 0 else -d) = max (-d) 0 := by
  rcases le_or_lt 0 d with h | h
  · rw [if_pos h, max_eq_right (neg_nonpos.mpr h)]
  · rw [if_neg (not_le.mpr h), max_eq_left (neg_nonneg.mpr h.le)]

/-- C4: for every positive lookback period, `calc_rsi` returns
"insufficient data" on fewer than `period+1` closes, and otherwise
agrees exactly with the Wilder-method computation spelled out by the
spec (`max`-split gains and losses, arithmetic-mean seed over the first
`period` values, `avg = (avg*(period-1)+new)/period` smoothing, `100`
on a zero final average loss, `100 - 100/(1 + rs)` otherwise). -/
theorem calc_rsi_eq_spec (closes : List ℚ) (period : Nat) (hp : 0 < period) :
    calc_rsi closes period = rsiSpec closes period ∧
    (closes.length < period + 1 → calc_rsi closes period = none) := by
  constructor
  · unfold calc_rsi rsiSpec
    simp only [wilderSmooth_eq_foldl, gain_if_eq_max, loss_if_eq_max]
  · intro h
    unfold calc_rsi
    rw [if_pos h]

/-- C4 witness: a fifteen-close sequence with the default period 14. -/
theorem calc_rsi_eq_spec_witness :
    0 < 14 ∧
    calc_rsi [1, 2, 3, 4, 5, 6, 7, 8, 9, 10, 11, 12, 13, 14, 15] 14
      = rsiSpec [1, 2, 3, 4, 5, 6, 7, 8, 9, 10, 11, 12, 13, 14, 15] 14 :=
  ⟨by decide,
   (calc_rsi_eq_spec [1, 2, 3, 4, 5, 6, 7, 8, 9, 10, 11, 12, 13, 14, 15] 14
      (by decide)).1⟩

theorem emaGo_length (k : ℚ) :
    ∀ (vs : List ℚ) (p : ℚ), (emaGo k p vs).length = vs.length := by
  intro vs
  induction vs with
  | nil => intro p; rfl
  | cons v t ih =>
      intro p
      show (emaGo k (v * k + p * (1 - k)) t).length + 1 = t.length + 1
      rw [ih]

theorem ema_length (vals : List ℚ) (p : Nat) : (ema vals p).length = vals.length := by
  cases vals with
  | nil => rfl
  | cons v vs =>
      show (emaGo (2 / ((p : ℚ) + 1)) v vs).length + 1 = vs.length + 1
      rw [emaGo_length]

theorem emaGo_getD_succ (k : ℚ) :
    ∀ (vs : List ℚ) (p : ℚ) (i : Nat), i + 1 < vs.length →
      (emaGo k p vs).getD (i + 1) 0 =
        vs.getD (i + 1) 0 * k + (emaGo k p vs).getD i 0 * (1 - k) := by
  intro vs
  induction vs with
  | nil => intro p i h; exact absurd h (by simp)
  | cons v t ih =>
      intro p i h
      cases i with
      | zero =>
          cases t with
          | nil => exact absurd h (by simp)
          | cons w t2 =>
              show (emaGo k (v * k + p * (1 - k)) (w :: t2)).getD 0 0 = _
              simp [emaGo, List.getD]
      | succ j =>
          have hj : j + 1 < t.length := by
            have := h
            simp only [List.length_cons] at this
            omega
          have hrec := ih (v * k + p * (1 - k)) j hj
          show (emaGo k (v * k + p * (1 - k)) t).getD (j + 1) 0 =
            t.getD (j + 1) 0 * k +
              (emaGo k (v * k + p * (1 - k)) t).getD j 0 * (1 - k)
          exact hrec

theorem ema_getD_zero (vals : List ℚ) (p : Nat) (h : 0 < vals.length) :
    (ema vals p).getD 0 0 = vals.getD 0 0 := by
  cases vals with
  | nil => exact absurd h (by simp)
  | cons v vs => rfl

theorem ema_getD_succ (vals : List ℚ) (p : Nat) (i : Nat)
    (h : i + 1 < vals.length) :
    (ema vals p).getD (i + 1) 0 =
      vals.getD (i + 1) 0 * (2 / ((p : ℚ) + 1)) +
        (ema vals p).getD i 0 * (1 - 2 / ((p : ℚ) + 1)) := by
  cases vals with
  | nil => exact absurd h (by simp)
  | cons v vs =>
      cases i with
      | zero =>
          cases vs with
          | nil => exact absurd h (by simp)
          | cons w t2 =>
              show (emaGo (2 / ((p : ℚ) + 1)) v (w :: t2)).getD 0 0 = _
              simp [emaGo, List.getD, ema]
      | succ j =>
          have hj : j + 1 < vs.length := by
            simp only [List.length_cons] at h
            omega
          have hrec := emaGo_getD_succ (2 / ((p : ℚ) + 1)) vs v j hj
          show (emaGo (2 / ((p : ℚ) + 1)) v vs).getD (j + 1) 0 =
            vs.getD (j + 1) 0 * (2 / ((p : ℚ) + 1)) +
              (emaGo (2 / ((p : ℚ) + 1)) v vs).getD j 0 * (1 - 2 / ((p : ℚ) + 1))
          exact hrec

/-- C5: `IndicatorEngine.macd` yields "insufficient data" exactly when
the cache yields no closes (for a present entry: exactly when it has
fewer than 1 valid close); otherwise both EMAs and the MACD line are
elementwise series of the same length as the closes, the signal line is
the EMA of the MACD line, and the result is the last value of each of
the three series; and the `ema` helper satisfies the spec's recursion —
seeded by the first value, then `new*k + prev*(1-k)` with
`k = 2/(period+1)` — over the whole closes sequence. -/
theorem macd_spec_conformance
    (cache : Cache) (market tf : String) (short lng sgnl : Nat) :
    (IndicatorEngine.macd cache market tf short lng sgnl = none ↔
       IndicatorEngine.get_closes cache market tf = none) ∧
    (∀ e : CacheEntry, DataEngine.get cache market tf = some e →
       (IndicatorEngine.macd cache market tf short lng sgnl = none ↔
          validCloses e.candles = [])) ∧
    (∀ closes : List ℚ, IndicatorEngine.get_closes cache market tf = some closes →
       (ema closes short).length = closes.length ∧
       (ema closes lng).length = closes.length ∧
       (List.zipWith (fun s l => s - l) (ema closes short) (ema closes lng)).length
         = closes.length ∧
       IndicatorEngine.macd cache market tf short lng sgnl =
         some
           ((List.zipWith (fun s l => s - l) (ema closes short)
               (ema closes lng)).getLastD 0,
            (ema (List.zipWith (fun s l => s - l) (ema closes short)
               (ema closes lng)) sgnl).getLastD 0,
            (List.zipWith (fun s l => s - l) (ema closes short)
               (ema closes lng)).getLastD 0 -
              (ema (List.zipWith (fun s l => s - l) (ema closes short)
                 (ema closes lng)) sgnl).getLastD 0)) ∧
    (∀ (vals : List ℚ) (p : Nat),
       (ema vals p).length = vals.length ∧
       (0 < vals.length → (ema vals p).getD 0 0 = vals.getD 0 0) ∧
       (∀ i : Nat, i + 1 < vals.length →
          (ema vals p).getD (i + 1) 0 =
            vals.getD (i + 1) 0 * (2 / ((p : ℚ) + 1)) +
              (ema vals p).getD i 0 * (1 - 2 / ((p : ℚ) + 1)))) := by
  refine ⟨?_, ?_, ?_, ?_⟩
  · unfold IndicatorEngine.macd
    cases hget : IndicatorEngine.get_closes cache market tf with
    | none => simp
    | some closes => simp
  · intro e he
    unfold IndicatorEngine.macd IndicatorEngine.get_closes
    rw [he]
    by_cases hv : validCloses e.candles = []
    · simp [hv]
    · simp [hv]
  · intro closes hget
    unfold IndicatorEngine.macd
    rw [hget]
    refine ⟨ema_length closes short, ema_length closes lng, ?_, rfl⟩
    rw [List.length_zipWith, ema_length, ema_length, Nat.min_self]
  · intro vals p
    exact ⟨ema_length vals p, ema_getD_zero vals p, ema_getD_succ vals p⟩

/-- C5 witness: the two-candle fixture, closes `[1, 2]`, default
periods 12/26/9. -/
theorem macd_spec_conformance_witness :
    IndicatorEngine.macd witnessCache "m" "15" 12 26 9 =
      some
        ((List.zipWith (fun s l => s - l) (ema [1, 2] 12)
            (ema [1, 2] 26)).getLastD 0,
         (ema (List.zipWith (fun s l => s - l) (ema [1, 2] 12)
            (ema [1, 2] 26)) 9).getLastD 0,
         (List.zipWith (fun s l => s - l) (ema [1, 2] 12)
            (ema [1, 2] 26)).getLastD 0 -
           (ema (List.zipWith (fun s l => s - l) (ema [1, 2] 12)
              (ema [1, 2] 26)) 9).getLastD 0) :=
  ((macd_spec_conformance witnessCache "m" "15" 12 26 9).2.2.1 [1, 2]
    (by
      simp [IndicatorEngine.get_closes, DataEngine.get, cacheGet, witnessCache,
        validCloses, IndicatorEngine.to_float, pyFloat, List.find?,
        List.filterMap])).2.2.2


theorem idxList_length (n : Nat) : (idxList n).length = n := by
  unfold idxList
  rw [List.length_map, List.length_range]

theorem sq_dev_sum_pos (n : Nat) (hn : 2 ≤ n) (m : ℚ) :
    0 < ((idxList n).map (fun x => (x - m) ^ 2)).sum := by
  have hnonneg : ∀ y ∈ (idxList n).map (fun x => (x - m) ^ 2), (0 : ℚ) ≤ y := by
    intro y hy
    obtain ⟨x, hx, rfl⟩ := List.mem_map.mp hy
    exact sq_nonneg _
  have h0 : (0 : ℚ) ∈ idxList n := by
    unfold idxList
    refine List.mem_map.mpr ⟨0, ?_, ?_⟩
    · exact List.mem_range.mpr (by omega)
    · norm_num
  have h1 : (1 : ℚ) ∈ idxList n := by
    unfold idxList
    refine List.mem_map.mpr ⟨1, ?_, ?_⟩
    · exact List.mem_range.mpr (by omega)
    · norm_num
  rcases eq_or_ne m 0 with hm | hm
  · have hmem := List.mem_map_of_mem (fun x => (x - m) ^ 2) h1
    have hpos : (0 : ℚ) < ((1 : ℚ) - m) ^ 2 := by rw [hm]; norm_num
    exact lt_of_lt_of_le hpos (List.single_le_sum hnonneg _ hmem)
  · have hmem := List.mem_map_of_mem (fun x => (x - m) ^ 2) h0
    have hpos : (0 : ℚ) < ((0 : ℚ) - m) ^ 2 := by
      have hsq : ((0 : ℚ) - m) ^ 2 = m ^ 2 := by ring
      rw [hsq]
      exact lt_of_le_of_ne (sq_nonneg m) (Ne.symm (pow_ne_zero 2 hm))
    exact lt_of_lt_of_le hpos (List.single_le_sum hnonneg _ hmem)

theorem trendScoreOfCloses_eq_clamp (closes : List ℚ) (h10 : 10 ≤ closes.length) :
    trendScoreOfCloses closes =
      some (max 0 (min 100 (50 + olsSlope closes * 1000))) := by
  have h10' : ¬ closes.length < 10 := not_lt.mpr h10
  have hden := sq_dev_sum_pos closes.length (by omega)
    ((idxList closes.length).sum / ((closes.length : ℕ) : ℚ))
  simp only [trendScoreOfCloses, idxList_length, h10', if_false,
    olsSlope, ne_of_gt hden, ite_false]

theorem trend_score_eq_clamp
    (cache : Cache) (market tf : String) (closes : List ℚ)
    (hget : IndicatorEngine.get_closes cache market tf = some closes)
    (h10 : 10 ≤ closes.length) :
    IndicatorEngine.trend_score cache market tf =
      some (max 0 (min 100 (50 + olsSlope closes * 1000))) := by
  unfold IndicatorEngine.trend_score
  rw [hget]
  exact trendScoreOfCloses_eq_clamp closes h10

theorem trend_score_some_inv
    (cache : Cache) (market tf : String) (s : ℚ)
    (hs : IndicatorEngine.trend_score cache market tf = some s) :
    ∃ closes : List ℚ,
      IndicatorEngine.get_closes cache market tf = some closes ∧
      10 ≤ closes.length ∧
      s = max 0 (min 100 (50 + olsSlope closes * 1000)) := by
  unfold IndicatorEngine.trend_score at hs
  cases hget : IndicatorEngine.get_closes cache market tf with
  | none =>
      rw [hget] at hs
      exact absurd hs (by simp)
  | some closes =>
      rw [hget] at hs
      have hs2 : trendScoreOfCloses closes = some s := hs
      by_cases h10 : closes.length < 10
      · unfold trendScoreOfCloses at hs2
        rw [if_pos h10] at hs2
        exact absurd hs2 (by simp)
      · have heq := trendScoreOfCloses_eq_clamp closes (not_lt.mp h10)
        rw [heq] at hs2
        exact ⟨closes, rfl, not_lt.mp h10, (Option.some.inj hs2).symm⟩

theorem clamp_score_mono (a b : ℚ) (h : a ≤ b) :
    max 0 (min 100 (50 + a * 1000)) ≤ max 0 (min 100 (50 + b * 1000)) := by
  refine max_le_max (le_refl 0) (min_le_min (le_refl 100) ?_)
  nlinarith

/-- C6: the trend score is "insufficient data" when the closes are
absent or fewer than 10; otherwise it equals
`clamp(50 + slope*1000, 0, 100)` for the ordinary least-squares slope
of the closes against their indices `0..n-1`; every produced score lies
in `[0, 100]`, and produced scores are monotonically non-decreasing in
the slope of the close sequence. -/
theorem trend_score_spec (cache : Cache) (market tf : String) :
    (IndicatorEngine.get_closes cache market tf = none →
       IndicatorEngine.trend_score cache market tf = none) ∧
    (∀ closes : List ℚ,
       IndicatorEngine.get_closes cache market tf = some closes →
       closes.length < 10 →
       IndicatorEngine.trend_score cache market tf = none) ∧
    (∀ closes : List ℚ,
       IndicatorEngine.get_closes cache market tf = some closes →
       10 ≤ closes.length →
       IndicatorEngine.trend_score cache market tf =
         some (max 0 (min 100 (50 + olsSlope closes * 1000)))) ∧
    (∀ s : ℚ, IndicatorEngine.trend_score cache market tf = some s →
       0 ≤ s ∧ s ≤ 100) ∧
    (∀ (cache2 : Cache) (market2 tf2 : String) (closes closes2 : List ℚ)
       (s s2 : ℚ),
       IndicatorEngine.get_closes cache market tf = some closes →
       IndicatorEngine.get_closes cache2 market2 tf2 = some closes2 →
       IndicatorEngine.trend_score cache market tf = some s →
       IndicatorEngine.trend_score cache2 market2 tf2 = some s2 →
       olsSlope closes ≤ olsSlope closes2 → s ≤ s2) := by
  refine ⟨?_, ?_, ?_, ?_, ?_⟩
  · intro h
    unfold IndicatorEngine.trend_score
    rw [h]
  · intro closes hget h10
    unfold IndicatorEngine.trend_score
    rw [hget]
    show trendScoreOfCloses closes = none
    unfold trendScoreOfCloses
    rw [if_pos h10]
  · exact fun closes hget h10 => trend_score_eq_clamp cache market tf closes hget h10
  · intro s hs
    obtain ⟨closes, _, _, rfl⟩ := trend_score_some_inv cache market tf s hs
    exact ⟨le_max_left 0 _, max_le (by norm_num) (min_le_left 100 _)⟩
  · intro cache2 market2 tf2 closes closes2 s s2 hg1 hg2 hs1 hs2 hsl
    obtain ⟨c1, hc1, h1, rfl⟩ := trend_score_some_inv cache market tf s hs1
    obtain ⟨c2, hc2, h2, rfl⟩ := trend_score_some_inv cache2 market2 tf2 s2 hs2
    have e1 : c1 = closes := Option.some.inj (hc1.symm.trans hg1)
    have e2 : c2 = closes2 := Option.some.inj (hc2.symm.trans hg2)
    rw [e1, e2]
    exact clamp_score_mono _ _ hsl

/-- C6 witness: the ten-candle fixture with closes `1..10`. -/
theorem trend_score_spec_witness :
    IndicatorEngine.trend_score witnessCache10 "m" "15" =
      some (max 0 (min 100
        (50 + olsSlope [1, 2, 3, 4, 5, 6, 7, 8, 9, 10] * 1000))) :=
  (trend_score_spec witnessCache10 "m" "15").2.2.1
    [1, 2, 3, 4, 5, 6, 7, 8, 9, 10]
    (by
      simp [IndicatorEngine.get_closes, DataEngine.get, cacheGet, witnessCache10,
        validCloses, IndicatorEngine.to_float, pyFloat, List.find?,
        List.filterMap])
    (by norm_num)
